import Mathlib

open Matrix

/-!
Verification development for the dartsim SDF construction features
(`src/dartsim/src/SDFFeatures.cc`).

The C++ code builds DART rigid-body models from an SDF description.  We give a
shallow embedding of the relevant functions:

* `Iso` models `Eigen::Isometry3d`: a 3x3 linear part `R` plus a translation
  `t`.  Composition and the Eigen isometry inverse (which transposes the linear
  part) are embedded directly.  Real doubles are idealized as real numbers,
  matching the spec's "up to floating-point rounding" reading.
* `DVal` models a C++ double used as a joint-limit value: a finite rational or
  one of the two infinities.  (Exact rational payloads suffice because the
  claims about limits are exact branch/equality properties.)
* `Vec3` with `vcross`/`vlength` models the `Eigen::Vector3d` /
  `ignition::math::Vector3d` operations used by `ConstructPlane`.

The DART engine itself is an external dependency of the repository (only its
headers are included by the source).  The few engine behaviours the code relies
on (placement of a child body via
`T_parent * parent_T_prejoint * Q(q) * child_T_postjoint⁻¹`, `moveTo`
reparenting, `descendsFrom` ancestry walking, `SimpleFrame::setTransform`) are
modelled from the spec's description of that interface (spec section 4.5 and
the glossary).
-/

/-- Rigid-transform carrier mirroring `Eigen::Isometry3d`: a linear part and a
translation.  The linear part of a well-formed isometry is a rotation matrix;
this is not enforced by the type, exactly as `Eigen::Isometry3d` does not
enforce it, and rigidity appears as an explicit hypothesis (`Iso.IsRigid`)
where proofs need it. -/
structure Iso where
  R : Matrix (Fin 3) (Fin 3) ℝ
  t : Fin 3 → ℝ

/-- Composition of isometries, mirroring `Eigen::Isometry3d::operator*`. -/
def Iso.mul (a b : Iso) : Iso :=
  ⟨a.R * b.R, a.R *ᵥ b.t + a.t⟩

/-- The identity transform, `Eigen::Isometry3d::Identity()`. -/
def Iso.id3 : Iso := ⟨1, 0⟩

/-- Eigen's isometry inverse: transpose the linear part (valid because Eigen
assumes the linear part is a rotation) and invert the translation. -/
def Iso.inv (a : Iso) : Iso :=
  ⟨a.R.transpose, -(a.R.transpose *ᵥ a.t)⟩

instance : Mul Iso := ⟨Iso.mul⟩
instance : One Iso := ⟨Iso.id3⟩
instance : Inv Iso := ⟨Iso.inv⟩

/-- A transform is rigid when its linear part is orthogonal.  This is the
well-formedness condition under which Eigen's transpose-based inverse is a true
inverse. -/
def Iso.IsRigid (a : Iso) : Prop := a.R.transpose * a.R = 1

/-- Joint-limit value: a C++ double that is either finite or one of the two
infinities produced by the `infIfNeg` convention. -/
inductive DVal where
  | fin (v : ℚ)
  | posInf
  | negInf
deriving DecidableEq

/-- Negation on `DVal`, mirroring unary minus on doubles (which maps the two
infinities onto each other). -/
def DVal.neg : DVal → DVal
  | .fin v => .fin (-v)
  | .posInf => .negInf
  | .negInf => .posInf

/-- The C++ test `_value < 0.0` (note `-inf < 0` is true and `+inf < 0` is
false for IEEE doubles). -/
def DVal.isNegative : DVal → Bool
  | .fin v => decide (v < 0)
  | .posInf => false
  | .negInf => true

/-- Embeds `infIfNeg` (SDFFeatures.cc lines 59-65): a negative declared value
means unbounded and becomes `+infinity`. -/
def infIfNeg (x : DVal) : DVal :=
  if x.isNegative then DVal.posInf else x

/-- Field accessors of `sdf::JointAxis` used by the source.  `xyz` is the
declared direction vector, `useParentModelFrame` the relative-to-model-frame
flag; the remaining fields are the numeric per-axis values. -/
structure SdfJointAxis where
  xyz : Fin 3 → ℝ
  useParentModelFrame : Bool
  initialPosition : DVal
  damping : DVal
  friction : DVal
  springReference : DVal
  springStiffness : DVal
  lower : DVal
  upper : DVal
  effort : DVal
  maxVelocity : DVal

/-- Per-degree-of-freedom joint properties written by
`CopyStandardJointAxisProperties` (one index of the DART `Properties` arrays). -/
structure AxisProps where
  initialPosition : DVal
  dampingCoefficient : DVal
  friction : DVal
  restPosition : DVal
  springStiffness : DVal
  positionLowerLimit : DVal
  positionUpperLimit : DVal
  forceLowerLimit : DVal
  forceUpperLimit : DVal
  velocityLowerLimit : DVal
  velocityUpperLimit : DVal
deriving DecidableEq

/-- Embeds `CopyStandardJointAxisProperties` (SDFFeatures.cc lines 69-86),
field by field.  Note the position limits are copied unchanged while the force
and velocity limits go through `infIfNeg`. -/
def copyStandardJointAxisProperties (ax : SdfJointAxis) : AxisProps :=
  { initialPosition := ax.initialPosition
    dampingCoefficient := ax.damping
    friction := ax.friction
    restPosition := ax.springReference
    springStiffness := ax.springStiffness
    positionLowerLimit := ax.lower
    positionUpperLimit := ax.upper
    forceLowerLimit := (infIfNeg ax.effort).neg
    forceUpperLimit := infIfNeg ax.effort
    velocityLowerLimit := (infIfNeg ax.maxVelocity).neg
    velocityUpperLimit := infIfNeg ax.maxVelocity }

/-- Three-component real vector mirroring `Eigen::Vector3d`. -/
structure Vec3 where
  x : ℝ
  y : ℝ
  z : ℝ

/-- Cross product, `Eigen::Vector3d::cross`. -/
def vcross (a b : Vec3) : Vec3 :=
  ⟨a.y * b.z - a.z * b.y, a.z * b.x - a.x * b.z, a.x * b.y - a.y * b.x⟩

/-- Euclidean norm, `Eigen::Vector3d::norm` / `ignition::math::Vector3d::Length`. -/
noncomputable def vlength (a : Vec3) : ℝ :=
  Real.sqrt (a.x ^ 2 + a.y ^ 2 + a.z ^ 2)

/-- The corrective transform computed by `ConstructPlane`: either the identity
or a rotation by a given angle about a given (normalized) axis, mirroring the
two ways the local `R` is produced (`Eigen::AngleAxisd` is opaque third-party
code, so the rotation is kept symbolic). -/
inductive PlaneCorrection where
  | ident
  | rotated (angle : ℝ) (axis : Vec3)

/-- The angle computed by `ConstructPlane` (SDFFeatures.cc line 197):
`asin(|z × normal| / |normal|)`. -/
noncomputable def planeAngle (normal : Vec3) : ℝ :=
  Real.arcsin (vlength (vcross ⟨0, 0, 1⟩ normal) / vlength normal)

/-- Embeds the corrective-rotation computation of `ConstructPlane`
(SDFFeatures.cc lines 185-207): rotate the canonical up-axis onto the declared
normal via the cross-product axis and the arcsine of its normalized magnitude,
skipping the rotation (identity) when the angle is within the `1e-12`
tolerance; the `axis/norm` division is performed only inside the taken
branch. -/
noncomputable def constructPlaneCorrection (normal : Vec3) : PlaneCorrection :=
  let upZ : Vec3 := ⟨0, 0, 1⟩
  let axis := vcross upZ normal
  let nrm := vlength axis
  let angle := Real.arcsin (nrm / vlength normal)
  if (1e-12 : ℝ) < angle then
    .rotated angle ⟨axis.x / nrm, axis.y / nrm, axis.z / nrm⟩
  else
    .ident

/-- Full result of `ConstructPlane`: a thin box of the declared plane size with
`1e-4` thickness, plus the corrective rotation. -/
noncomputable def constructPlane (size0 size1 : ℝ) (normal : Vec3)
    : (ℝ × ℝ × ℝ) × PlaneCorrection :=
  ((size0, size1, (1e-4 : ℝ)), constructPlaneCorrection normal)

/-- Line 639: `child_T_postjoint = T_child⁻¹ * T_joint`. -/
def child_T_postjoint (T_child T_joint : Iso) : Iso :=
  T_child⁻¹ * T_joint

/-- Line 640: `parent_T_prejoint_init = T_parent⁻¹ * T_joint`. -/
def parent_T_prejoint_init (T_parent T_joint : Iso) : Iso :=
  T_parent⁻¹ * T_joint

/-- Modelled from the spec: the engine (DART, an external dependency whose
sources are not part of this repository) places a child body relative to its
parent via `parent_T_prejoint * Q(q) * child_T_postjoint⁻¹`, where `Q(q)` is
the position-dependent transform at the joint's current generalized
coordinate (spec section 4.5, step 5 rationale).  This is the value the code
reads back as `_child->getTransform(_parent)` on line 648 right after the
provisional transforms have been applied. -/
def engineRelTransform (pre Q post : Iso) : Iso :=
  pre * Q * post⁻¹

/-- Lines 646-649: the `prejoint_T_postjoint` transform read back from the
engine at its current (initial) generalized coordinate, where `Q` is the
engine's position-dependent transform at that coordinate. -/
def prejoint_T_postjoint_readback (T_parent T_child T_joint Q : Iso) : Iso :=
  (parent_T_prejoint_init T_parent T_joint)⁻¹
    * engineRelTransform (parent_T_prejoint_init T_parent T_joint) Q
        (child_T_postjoint T_child T_joint)
    * child_T_postjoint T_child T_joint

/-- Lines 654-658: the corrected `parent_T_prejoint_final`.  The code reads
`_parent->getWorldTransform()` here; reparenting the child does not move the
parent (the guard on line 555 ensures the parent is not in the child's
subtree), so this equals the `T_parent` captured on line 566. -/
def parent_T_prejoint_final (T_parent T_child T_joint Q : Iso) : Iso :=
  T_parent⁻¹ * T_child * child_T_postjoint T_child T_joint
    * (prejoint_T_postjoint_readback T_parent T_child T_joint Q)⁻¹

/-- A DART `BodyNode` together with the joint that attaches it to its parent:
`parent = none` means the body hangs from the world frame.  `preT`, `jointT`
and `postT` are the joint's transform-from-parent, current position-dependent
transform and transform-from-child; the body's relative transform is
`preT * jointT * postT⁻¹` (spec section 4.5, step 5). -/
structure Body where
  name : String
  parent : Option Nat
  preT : Iso
  jointT : Iso
  postT : Iso

/-- The per-model state mirroring `ModelInfo`: the skeleton's body list
(indices are body handles), the model `SimpleFrame` (its parent frame and its
transform relative to that parent), and the number of joints registered so far
via `AddJoint`. -/
structure ModelState where
  bodies : List Body
  frameParent : Option Nat
  frameRel : Iso
  njoints : Nat

/-- Parent body index of body `i`, if any. -/
def parentOf (bs : List Body) (i : Nat) : Option Nat :=
  (bs[i]?).bind Body.parent

/-- Iterate a parent map `k` times from `a`; `none` once the chain leaves the
map (reaches the world frame). -/
def iterP (f : Nat → Option Nat) : Nat → Nat → Option Nat
  | 0, a => some a
  | k + 1, a =>
    match f a with
    | none => none
    | some p => iterP f k p

/-- A parent map is acyclic when no body reaches itself by a positive number
of upward steps. -/
def AcyclicF (f : Nat → Option Nat) : Prop :=
  ∀ a k, 0 < k → iterP f k a ≠ some a

/-- The model's body graph is a forest (spec: "no body is its own ancestor"). -/
def Acyclic (bs : List Body) : Prop :=
  AcyclicF (parentOf bs)

/-- Point update of a parent map: the effect of `moveTo` on ancestry is that
body `c` now has parent `p` and every other body keeps its parent. -/
def updF (f : Nat → Option Nat) (c p : Nat) : Nat → Option Nat :=
  fun x => if x = c then some p else f x

/-- Fuel-bounded ancestry walk mirroring DART's `Frame::descendsFrom`, which
returns true when the frames coincide or the parent chain of `a` reaches `b`.
On an acyclic parent map a chain visits each body at most once, so fuel
`length + 1` is enough to emulate DART's unbounded walk. -/
def descendsAuxF (f : Nat → Option Nat) : Nat → Nat → Nat → Bool
  | 0, _, _ => false
  | fuel + 1, a, b =>
    a == b ||
      match f a with
      | none => false
      | some p => descendsAuxF f fuel p b

/-- Modelled from the spec: DART's `_parent->descendsFrom(_child)` test used by
the guard on line 555 ("parent is a descendant of child"). -/
def descendsFrom (st : ModelState) (a b : Nat) : Bool :=
  descendsAuxF (parentOf st.bodies) (st.bodies.length + 1) a b

/-- Relative transform of body `i` with respect to its parent frame, per the
engine's placement equation. -/
def relTransform (bs : List Body) (i : Nat) : Iso :=
  match bs[i]? with
  | some b => b.preT * b.jointT * b.postT⁻¹
  | none => 1

/-- Fuel-bounded world transform of body `i`: compose relative transforms up
the parent chain.  As with `descendsFrom`, fuel `length + 1` covers any chain
in an acyclic graph. -/
def worldTransformAux (bs : List Body) : Nat → Nat → Iso
  | 0, _ => 1
  | fuel + 1, i =>
    match parentOf bs i with
    | none => relTransform bs i
    | some p => worldTransformAux bs fuel p * relTransform bs i

/-- `BodyNode::getWorldTransform`. -/
def worldTransform (st : ModelState) (i : Nat) : Iso :=
  worldTransformAux st.bodies (st.bodies.length + 1) i

/-- `SimpleFrame::getWorldTransform` for the model frame: the parent frame's
world transform composed with the frame's relative transform. -/
def frameWorldTransform (st : ModelState) : Iso :=
  match st.frameParent with
  | none => st.frameRel
  | some i => worldTransform st i * st.frameRel

/-- Helper for `Skeleton::getBodyNode(name)`: index of the first body carrying
the given name. -/
def getBodyNodeAux (linkName : String) : List Body → Nat → Option Nat
  | [], _ => none
  | b :: rest, i =>
    if b.name = linkName then some i else getBodyNodeAux linkName rest (i + 1)

/-- `Skeleton::getBodyNode(name)`: the body with the given name, if any. -/
def getBodyNode (bs : List Body) (linkName : String) : Option Nat :=
  getBodyNodeAux linkName bs 0

/-- Fields of `sdf::Link` used by the construction code settled here (the
inertial and shape fields do not participate in any claim). -/
structure SdfLink where
  name : String
  pose : Iso
  poseFrame : String

/-- The closed set of `sdf::JointType` tags the dispatch on lines 576-633
distinguishes; every tag the code does not recognize (CONTINUOUS, GEARBOX,
REVOLUTE2, INVALID, ...) lands in the final `else` and is collapsed into
`unsupported`. -/
inductive SdfJointType where
  | ball
  | fixed
  | prismatic
  | revolute
  | screw
  | universal
  | unsupported
deriving DecidableEq

/-- Fields of `sdf::Joint` used by `ConstructSdfJoint`.  `Axis(0)`/`Axis(1)`
are modelled as total fields (the code dereferences them without a null
check). -/
structure SdfJoint where
  name : String
  parentLinkName : String
  childLinkName : String
  jtype : SdfJointType
  pose : Iso
  poseFrame : String
  axis0 : SdfJointAxis
  axis1 : SdfJointAxis

/-- Fields of `sdf::Model` used by `ConstructSdfModel`. -/
structure SdfModel where
  name : String
  pose : Iso
  links : List SdfLink
  joints : List SdfJoint

/-- Embeds `ResolveSdfLinkReferenceFrame` (lines 668-681): the empty frame
name resolves to the model frame's world transform; any other name is
unsupported and resolves to the identity (with a diagnostic). -/
def resolveSdfLinkReferenceFrame (st : ModelState) (frame : String) : Iso :=
  if frame = "" then frameWorldTransform st else 1

/-- Embeds `ResolveSdfJointReferenceFrame` (lines 684-700): the empty frame
name resolves to the child body's world transform; any other name is
unsupported and resolves to the identity (with a diagnostic). -/
def resolveSdfJointReferenceFrame (st : ModelState) (frame : String)
    (child : Nat) : Iso :=
  if frame = "" then worldTransform st child else 1

/-- `GetParentModelFrame` (lines 89-93): world transform of the model frame. -/
def getParentModelFrame (st : ModelState) : Iso :=
  frameWorldTransform st

/-- Embeds `ConvertJointAxis` (lines 96-112).  When the axis is declared
relative to the parent model frame, the code forms the quaternion
`O_R_J.inverse() * O_R_M` from the rotation parts of `T_joint` and the model
frame and applies it to the declared axis; the inverse of a rotation is its
transpose, which is how the quaternion algebra is embedded here. -/
def convertJointAxis (st : ModelState) (ax : SdfJointAxis) (T_joint : Iso) :
    Fin 3 → ℝ :=
  if ax.useParentModelFrame then
    (T_joint.R.transpose * (getParentModelFrame st).R) *ᵥ ax.xyz
  else
    ax.xyz

/-- DART single-axis joint properties relevant to the claims: the converted
axis plus the standard per-axis fields. -/
structure SingleAxisProps where
  axis : Fin 3 → ℝ
  std : AxisProps

/-- Embeds the property construction of `ConstructSingleAxisJoint`
(lines 115-131), shared by the prismatic, revolute and screw branches. -/
def constructSingleAxisJointProps (st : ModelState) (j : SdfJoint)
    (T_joint : Iso) : SingleAxisProps :=
  ⟨convertJointAxis st j.axis0 T_joint, copyStandardJointAxisProperties j.axis0⟩

/-- DART universal joint properties relevant to the claims. -/
structure UniversalJointProps where
  axis0 : Fin 3 → ℝ
  axis1 : Fin 3 → ℝ
  std0 : AxisProps
  std1 : AxisProps

/-- Embeds the property construction of `ConstructUniversalJoint`
(lines 134-152): identical conversion applied independently to each of the two
axes. -/
def constructUniversalJointProps (st : ModelState) (j : SdfJoint)
    (T_joint : Iso) : UniversalJointProps :=
  ⟨convertJointAxis st j.axis0 T_joint, convertJointAxis st j.axis1 T_joint,
   copyStandardJointAxisProperties j.axis0, copyStandardJointAxisProperties j.axis1⟩

/-- Embeds `ConstructSdfLink` (lines 320-395): create a free body whose world
transform is `resolve(poseFrame) * declared pose` (an extra joint is
registered for the free joint), and if this is the model's first body,
reparent the model frame onto it while preserving the frame's world pose
(`setParentFrame` followed by `setTransform` with the previously captured
world transform). -/
def constructSdfLink (st : ModelState) (link : SdfLink) : ModelState × Nat :=
  let tf := resolveSdfLinkReferenceFrame st link.poseFrame * link.pose
  let body : Body :=
    { name := link.name, parent := none, preT := 1, jointT := tf, postT := 1 }
  let newId := st.bodies.length
  let st1 : ModelState :=
    { bodies := st.bodies ++ [body], frameParent := st.frameParent,
      frameRel := st.frameRel, njoints := st.njoints + 1 }
  if st1.bodies.length = 1 then
    let tfFrame := frameWorldTransform st1
    ({ st1 with frameParent := some newId,
                frameRel := (worldTransform st1 newId)⁻¹ * tfFrame }, newId)
  else
    (st1, newId)

/-- Embeds `FindOrConstructLink` (lines 502-522): return the existing body for
the name if already built, otherwise look the name up among the model's
declared links (an undeclared name is a diagnosed error yielding `none`) and
delegate to the link builder. -/
def findOrConstructLink (st : ModelState) (m : SdfModel) (linkName : String) :
    ModelState × Option Nat :=
  match getBodyNode st.bodies linkName with
  | some i => (st, some i)
  | none =>
    match m.links.find? (fun l => l.name == linkName) with
    | none => (st, none)
    | some link =>
      let r := constructSdfLink st link
      (r.1, some r.2)

/-- Net effect on the body list of `_child->moveTo(_parent, properties)`
followed by the transform assignments of lines 641-642 and 660: the child's
parent joint now connects it to `p` with the given transforms.  The lookup
cannot fail for a valid child handle; an out-of-range index leaves the list
unchanged. -/
def setJointBody (bs : List Body) (c p : Nat) (pre q post : Iso) : List Body :=
  match bs[c]? with
  | none => bs
  | some b =>
    bs.set c { b with parent := some p, preT := pre, jointT := q, postT := post }

/-- Joint types accepted by the dispatch on lines 576-633. -/
def jointTypeSupported : SdfJointType → Bool
  | .unsupported => false
  | _ => true

/-- Embeds `ConstructSdfJoint` (ModelInfo overload, lines 525-665).  `Q` is
the engine's position-dependent transform for the newly created joint at its
initial generalized coordinate (for single-axis and universal joints the
properties carry `mInitialPositions` copied from the SDF, so DART initializes
the coordinate to the declared initial position).  A null parent or child, a
parent that descends from the child, or an unsupported joint type all yield
an invalid handle (`none`) with the state unchanged; otherwise the child is
moved under the parent and its joint transforms are set to the reconciled
values of lines 639-660. -/
def constructSdfJoint (Q : SdfJoint → Iso) (st : ModelState) (j : SdfJoint)
    (parent child : Option Nat) : ModelState × Option Nat :=
  match parent, child with
  | some p, some c =>
    if descendsFrom st p c then (st, none)
    else
      let T_parent := worldTransform st p
      let T_child := worldTransform st c
      let T_joint := resolveSdfJointReferenceFrame st j.poseFrame c * j.pose
      if jointTypeSupported j.jtype then
        let Qj := Q j
        let post := child_T_postjoint T_child T_joint
        let pre := parent_T_prejoint_final T_parent T_child T_joint Qj
        ({ bodies := setJointBody st.bodies c p pre Qj post,
           frameParent := st.frameParent, frameRel := st.frameRel,
           njoints := st.njoints + 1 }, some st.njoints)
      else
        (st, none)
  | _, _ => (st, none)

/-- One iteration of the link loop of `ConstructSdfModel` (lines 288-292). -/
def linkStep (m : SdfModel) (st : ModelState) (link : SdfLink) : ModelState :=
  (findOrConstructLink st m link.name).1

/-- One iteration of the joint loop of `ConstructSdfModel` (lines 296-314):
resolve the parent and child link names on demand, then construct the joint;
a failed joint leaves the loop running on the remaining joints. -/
def jointStep (Q : SdfJoint → Iso) (m : SdfModel) (st : ModelState)
    (j : SdfJoint) : ModelState :=
  let r1 := findOrConstructLink st m j.parentLinkName
  let r2 := findOrConstructLink r1.1 m j.childLinkName
  (constructSdfJoint Q r2.1 j r1.2 r2.2).1

/-- Embeds `ConstructSdfModel` (lines 269-317): the model frame starts as a
child of the world frame at the declared model pose; all declared links are
constructed first, then all joints. -/
def constructSdfModel (Q : SdfJoint → Iso) (m : SdfModel) : ModelState :=
  let st0 : ModelState :=
    { bodies := [], frameParent := none, frameRel := m.pose, njoints := 0 }
  let st1 := m.links.foldl (linkStep m) st0
  m.joints.foldl (jointStep Q m) st1

/-- A sample axis record with negative declared limits: effort `-1` and max
velocity `-3` (both "unbounded" by convention), position limits `(-1, -2)`. -/
def sampleAxisNeg : SdfJointAxis :=
  { xyz := fun _ => 0, useParentModelFrame := false,
    initialPosition := .fin 0, damping := .fin 0, friction := .fin 0,
    springReference := .fin 0, springStiffness := .fin 0,
    lower := .fin (-1), upper := .fin (-2), effort := .fin (-1),
    maxVelocity := .fin (-3) }

/-- A sample axis record with declared effort `5`. -/
def sampleAxisEffort5 : SdfJointAxis :=
  { xyz := fun _ => 0, useParentModelFrame := false,
    initialPosition := .fin 0, damping := .fin 0, friction := .fin 0,
    springReference := .fin 0, springStiffness := .fin 0,
    lower := .fin 0, upper := .fin 1, effort := .fin 5,
    maxVelocity := .fin 2 }

/-- A sample axis record with the relative-to-model-frame flag set. -/
def sampleAxisModelFrame : SdfJointAxis :=
  { xyz := fun _ => 1, useParentModelFrame := true,
    initialPosition := .fin 0, damping := .fin 0, friction := .fin 0,
    springReference := .fin 0, springStiffness := .fin 0,
    lower := .fin 0, upper := .fin 1, effort := .fin 5,
    maxVelocity := .fin 2 }

/-- A sample body hanging from the world frame at the identity pose. -/
def sampleBody : Body :=
  { name := "base", parent := none, preT := 1, jointT := 1, postT := 1 }

/-- A sample model state holding exactly `sampleBody` (the state right after
constructing a single link) with the model frame on that canonical body. -/
def sampleStateOneBody : ModelState :=
  { bodies := [sampleBody], frameParent := some 0, frameRel := 1, njoints := 1 }

/-- A sample revolute joint specification between the two sample link names. -/
def sampleJoint : SdfJoint :=
  { name := "j0", parentLinkName := "base", childLinkName := "arm",
    jtype := .revolute, pose := 1, poseFrame := "",
    axis0 := sampleAxisNeg, axis1 := sampleAxisNeg }

/-- A sample engine transform assignment: every joint sits at a coordinate
whose position-dependent transform is the identity. -/
def sampleEngineQ : SdfJoint → Iso := fun _ => 1

/-- A sample declared link at the identity pose in the model frame. -/
def sampleLinkBase : SdfLink :=
  { name := "base", pose := 1, poseFrame := "" }

/-- A sample one-link model with no joints. -/
def sampleModelOneLink : SdfModel :=
  { name := "m", pose := 1, links := [sampleLinkBase], joints := [] }

/-- The empty model state a model build starts from (identity model pose). -/
def sampleStateEmpty : ModelState :=
  { bodies := [], frameParent := none, frameRel := 1, njoints := 0 }

theorem iso_ext {a b : Iso} (hR : a.R = b.R) (ht : a.t = b.t) : a = b := by
  cases a; cases b; simp_all

theorem iso_mul_R (a b : Iso) : (a * b).R = a.R * b.R := rfl

theorem iso_mul_t (a b : Iso) : (a * b).t = a.R *ᵥ b.t + a.t := rfl

theorem iso_one_R : (1 : Iso).R = 1 := rfl

theorem iso_one_t : (1 : Iso).t = 0 := rfl

theorem iso_inv_R (a : Iso) : a⁻¹.R = a.R.transpose := rfl

theorem iso_inv_t (a : Iso) : a⁻¹.t = -(a.R.transpose *ᵥ a.t) := rfl

theorem iso_mul_assoc (a b c : Iso) : a * b * c = a * (b * c) := by
  apply iso_ext <;>
    simp [iso_mul_R, iso_mul_t, Matrix.mul_assoc, Matrix.mulVec_add,
      Matrix.mulVec_mulVec, add_assoc]

theorem iso_one_mul (a : Iso) : 1 * a = a := by
  apply iso_ext <;> simp [iso_mul_R, iso_mul_t, iso_one_R, iso_one_t]

theorem iso_mul_one (a : Iso) : a * 1 = a := by
  apply iso_ext <;> simp [iso_mul_R, iso_mul_t, iso_one_R, iso_one_t]

theorem iso_isRigid_one : (1 : Iso).IsRigid := by
  simp [Iso.IsRigid, iso_one_R]

theorem iso_rigid_mul_transpose {a : Iso} (h : a.IsRigid) :
    a.R * a.R.transpose = 1 :=
  Matrix.mul_eq_one_comm.mp h

theorem iso_isRigid_mul {a b : Iso} (ha : a.IsRigid) (hb : b.IsRigid) :
    (a * b).IsRigid := by
  have hstep : (a * b).R.transpose * (a * b).R
      = b.R.transpose * ((a.R.transpose * a.R) * b.R) := by
    simp [iso_mul_R, Matrix.transpose_mul, Matrix.mul_assoc]
  unfold Iso.IsRigid
  rw [hstep, ha, Matrix.one_mul, hb]

theorem iso_isRigid_inv {a : Iso} (h : a.IsRigid) : a⁻¹.IsRigid := by
  unfold Iso.IsRigid
  simpa [iso_inv_R, Matrix.transpose_transpose] using
    iso_rigid_mul_transpose h

theorem iso_inv_mul_self {a : Iso} (h : a.IsRigid) : a⁻¹ * a = 1 := by
  apply iso_ext
  · simpa [iso_mul_R, iso_inv_R, iso_one_R] using h
  · simp [iso_mul_t, iso_inv_R, iso_inv_t, iso_one_t]

theorem iso_mul_inv_self {a : Iso} (h : a.IsRigid) : a * a⁻¹ = 1 := by
  apply iso_ext
  · simpa [iso_mul_R, iso_inv_R, iso_one_R] using iso_rigid_mul_transpose h
  · simp [iso_mul_t, iso_inv_R, iso_inv_t, iso_one_t, Matrix.mulVec_neg,
      Matrix.mulVec_mulVec, iso_rigid_mul_transpose h]

theorem iso_inv_mul_cancel_left {a : Iso} (h : a.IsRigid) (b : Iso) :
    a⁻¹ * (a * b) = b := by
  rw [← iso_mul_assoc, iso_inv_mul_self h, iso_one_mul]

theorem iso_mul_inv_cancel_left {a : Iso} (h : a.IsRigid) (b : Iso) :
    a * (a⁻¹ * b) = b := by
  rw [← iso_mul_assoc, iso_mul_inv_self h, iso_one_mul]

theorem iso_mul_inv_cancel_right {a : Iso} (h : a.IsRigid) (b : Iso) :
    b * a * a⁻¹ = b := by
  rw [iso_mul_assoc, iso_mul_inv_self h, iso_mul_one]

theorem iso_inv_mul_cancel_right {a : Iso} (h : a.IsRigid) (b : Iso) :
    b * a⁻¹ * a = b := by
  rw [iso_mul_assoc, iso_inv_mul_self h, iso_mul_one]

/-- Claim C1: for every joint constructed with non-null parent and child and a
supported kind, the final parent-to-prejoint transform equals
`T_parent⁻¹ * T_child * child_T_postjoint * prejoint_T_postjoint⁻¹` for the
read-back `prejoint_T_postjoint`; the read-back value equals the engine's
position-dependent transform `Q` at its initial (declared) generalized
coordinate; and consequently the engine's placement of the child at that
coordinate, `T_parent * parent_T_prejoint_final * Q * child_T_postjoint⁻¹`,
reproduces the child's declared world transform `T_child` exactly (the
floating-point tolerance of the claim becomes exact equality over the real
numbers). -/
theorem C1_joint_transform_reconciliation
    (T_parent T_child T_joint Q : Iso)
    (hp : T_parent.IsRigid) (hc : T_child.IsRigid) (hj : T_joint.IsRigid)
    (hq : Q.IsRigid) :
    parent_T_prejoint_final T_parent T_child T_joint Q =
      T_parent⁻¹ * T_child * child_T_postjoint T_child T_joint
        * (prejoint_T_postjoint_readback T_parent T_child T_joint Q)⁻¹ ∧
    prejoint_T_postjoint_readback T_parent T_child T_joint Q = Q ∧
    T_parent * engineRelTransform
        (parent_T_prejoint_final T_parent T_child T_joint Q) Q
        (child_T_postjoint T_child T_joint) = T_child := by
  have hC : (child_T_postjoint T_child T_joint).IsRigid :=
    iso_isRigid_mul (iso_isRigid_inv hc) hj
  have hPi : (parent_T_prejoint_init T_parent T_joint).IsRigid :=
    iso_isRigid_mul (iso_isRigid_inv hp) hj
  have hread : prejoint_T_postjoint_readback T_parent T_child T_joint Q = Q := by
    unfold prejoint_T_postjoint_readback engineRelTransform
    simp only [iso_mul_assoc, iso_inv_mul_cancel_left hPi,
      iso_inv_mul_cancel_left hC, iso_inv_mul_cancel_right hC,
      iso_mul_inv_cancel_right hC]
  refine ⟨rfl, hread, ?_⟩
  unfold parent_T_prejoint_final engineRelTransform
  rw [hread]
  simp only [iso_mul_assoc, iso_inv_mul_cancel_left hq,
    iso_mul_inv_cancel_left hp, iso_mul_inv_self hC, iso_mul_one]

theorem C1_joint_transform_reconciliation_witness :
    parent_T_prejoint_final 1 1 1 1 =
      (1 : Iso)⁻¹ * 1 * child_T_postjoint 1 1
        * (prejoint_T_postjoint_readback 1 1 1 1)⁻¹ ∧
    prejoint_T_postjoint_readback 1 1 1 1 = 1 ∧
    (1 : Iso) * engineRelTransform (parent_T_prejoint_final 1 1 1 1) 1
        (child_T_postjoint 1 1) = 1 :=
  C1_joint_transform_reconciliation 1 1 1 1 iso_isRigid_one iso_isRigid_one
    iso_isRigid_one iso_isRigid_one

/-- Claim C3 counterexample: the claim says every limit field, including the
position lower/upper limits, maps a declared negative bound to infinity; but
`CopyStandardJointAxisProperties` copies `Lower()`/`Upper()` verbatim
(lines 78-79), so a declared position lower limit of `-1` is stored as `-1`,
not as an infinity. -/
theorem C3_position_limit_counterexample :
    (copyStandardJointAxisProperties sampleAxisNeg).positionLowerLimit =
      DVal.fin (-1) ∧
    (copyStandardJointAxisProperties sampleAxisNeg).positionUpperLimit =
      DVal.fin (-2) ∧
    DVal.fin (-1) ≠ DVal.posInf ∧ DVal.fin (-1) ≠ DVal.negInf := by
  refine ⟨rfl, rfl, by decide, by decide⟩

/-- Claim C3 (amended): only the force and velocity limit fields follow the
negative-means-unbounded convention (a negative declared effort or max
velocity is stored as the corresponding infinities); the position lower/upper
limits are stored exactly as declared. -/
theorem C3_limit_convention_amended (ax : SdfJointAxis) :
    (copyStandardJointAxisProperties ax).positionLowerLimit = ax.lower ∧
    (copyStandardJointAxisProperties ax).positionUpperLimit = ax.upper ∧
    (ax.effort.isNegative = true →
      (copyStandardJointAxisProperties ax).forceLowerLimit = DVal.negInf ∧
      (copyStandardJointAxisProperties ax).forceUpperLimit = DVal.posInf) ∧
    (ax.maxVelocity.isNegative = true →
      (copyStandardJointAxisProperties ax).velocityLowerLimit = DVal.negInf ∧
      (copyStandardJointAxisProperties ax).velocityUpperLimit = DVal.posInf) := by
  refine ⟨rfl, rfl, ?_, ?_⟩ <;> intro h <;>
    simp [copyStandardJointAxisProperties, infIfNeg, h, DVal.neg]

theorem C3_limit_convention_amended_witness :
    (copyStandardJointAxisProperties sampleAxisNeg).forceLowerLimit =
      DVal.negInf ∧
    (copyStandardJointAxisProperties sampleAxisNeg).forceUpperLimit =
      DVal.posInf ∧
    (copyStandardJointAxisProperties sampleAxisNeg).velocityLowerLimit =
      DVal.negInf :=
  ⟨((C3_limit_convention_amended sampleAxisNeg).2.2.1 (by decide)).1,
   ((C3_limit_convention_amended sampleAxisNeg).2.2.1 (by decide)).2,
   ((C3_limit_convention_amended sampleAxisNeg).2.2.2 (by decide)).1⟩

/-- Claim C8: a declared effort limit of `-1` yields force limits
`(-∞, +∞)`, a declared effort limit of `5` yields `(-5, +5)`, and in general a
non-negative declared effort `e` yields `(-e, +e)`. -/
theorem C8_effort_limit_convention (ax : SdfJointAxis) :
    (ax.effort = DVal.fin (-1) →
      (copyStandardJointAxisProperties ax).forceLowerLimit = DVal.negInf ∧
      (copyStandardJointAxisProperties ax).forceUpperLimit = DVal.posInf) ∧
    (ax.effort = DVal.fin 5 →
      (copyStandardJointAxisProperties ax).forceLowerLimit = DVal.fin (-5) ∧
      (copyStandardJointAxisProperties ax).forceUpperLimit = DVal.fin 5) ∧
    (∀ e : ℚ, 0 ≤ e → ax.effort = DVal.fin e →
      (copyStandardJointAxisProperties ax).forceLowerLimit = DVal.fin (-e) ∧
      (copyStandardJointAxisProperties ax).forceUpperLimit = DVal.fin e) := by
  refine ⟨?_, ?_, ?_⟩
  · intro h
    simp only [copyStandardJointAxisProperties, h]
    decide
  · intro h
    simp only [copyStandardJointAxisProperties, h]
    decide
  · intro e he h
    simp [copyStandardJointAxisProperties, h, infIfNeg, DVal.isNegative,
      DVal.neg, not_lt.mpr he]

theorem C8_effort_limit_convention_witness :
    ((copyStandardJointAxisProperties sampleAxisNeg).forceLowerLimit =
        DVal.negInf ∧
      (copyStandardJointAxisProperties sampleAxisNeg).forceUpperLimit =
        DVal.posInf) ∧
    ((copyStandardJointAxisProperties sampleAxisEffort5).forceLowerLimit =
        DVal.fin (-5) ∧
      (copyStandardJointAxisProperties sampleAxisEffort5).forceUpperLimit =
        DVal.fin 5) :=
  ⟨(C8_effort_limit_convention sampleAxisNeg).1 rfl,
   (C8_effort_limit_convention sampleAxisEffort5).2.1 rfl⟩

theorem constructPlaneCorrection_eq (normal : Vec3) :
    constructPlaneCorrection normal =
      if (1e-12 : ℝ) < planeAngle normal then
        PlaneCorrection.rotated (planeAngle normal)
          ⟨(vcross ⟨0, 0, 1⟩ normal).x / vlength (vcross ⟨0, 0, 1⟩ normal),
           (vcross ⟨0, 0, 1⟩ normal).y / vlength (vcross ⟨0, 0, 1⟩ normal),
           (vcross ⟨0, 0, 1⟩ normal).z / vlength (vcross ⟨0, 0, 1⟩ normal)⟩
      else PlaneCorrection.ident := rfl

theorem vlength_zero_vec : vlength ⟨0, 0, 0⟩ = 0 := by
  unfold vlength
  norm_num

theorem planeAngle_up_axis : planeAngle ⟨0, 0, 1⟩ = 0 := by
  unfold planeAngle
  have h1 : vcross ⟨0, 0, 1⟩ (⟨0, 0, 1⟩ : Vec3) = ⟨0, 0, 0⟩ := by
    simp [vcross]
  have h3 : vlength (⟨0, 0, 1⟩ : Vec3) = 1 := by
    unfold vlength
    norm_num
  rw [h1, h3, vlength_zero_vec]
  simp [Real.arcsin_zero]

theorem planeAngle_down_axis : planeAngle ⟨0, 0, -1⟩ = 0 := by
  unfold planeAngle
  have h1 : vcross ⟨0, 0, 1⟩ (⟨0, 0, -1⟩ : Vec3) = ⟨0, 0, 0⟩ := by
    simp [vcross]
  have h3 : vlength (⟨0, 0, -1⟩ : Vec3) = 1 := by
    unfold vlength
    norm_num
  rw [h1, h3, vlength_zero_vec]
  simp [Real.arcsin_zero]

/-- Claim C9: a plane whose declared normal equals the canonical up-axis
`(0,0,1)` yields the identity corrective rotation, and in general the branch
that divides the cross-product axis by its norm is taken only when the
computed angle exceeds the `1e-12` tolerance. -/
theorem C9_plane_up_axis_identity :
    constructPlaneCorrection ⟨0, 0, 1⟩ = PlaneCorrection.ident ∧
    ∀ normal : Vec3, constructPlaneCorrection normal = PlaneCorrection.ident ∨
      (1e-12 : ℝ) < planeAngle normal := by
  constructor
  · rw [constructPlaneCorrection_eq, planeAngle_up_axis, if_neg (by norm_num)]
  · intro normal
    rw [constructPlaneCorrection_eq]
    by_cases h : (1e-12 : ℝ) < planeAngle normal
    · exact Or.inr h
    · exact Or.inl (by rw [if_neg h])

/-- Claim C10: the corrective angle is an arcsine, hence never exceeds 90
degrees for any declared normal; for the antiparallel normal `(0,0,-1)` the
cross product with up is zero, the angle is `0`, and the corrective rotation
is the identity, the same output as for the normal `(0,0,1)`. -/
theorem C10_plane_antiparallel_normal :
    (∀ normal : Vec3, planeAngle normal ≤ Real.pi / 2) ∧
    vcross ⟨0, 0, 1⟩ ⟨0, 0, -1⟩ = ⟨0, 0, 0⟩ ∧
    planeAngle ⟨0, 0, -1⟩ = 0 ∧
    constructPlaneCorrection ⟨0, 0, -1⟩ = PlaneCorrection.ident ∧
    constructPlaneCorrection ⟨0, 0, -1⟩ = constructPlaneCorrection ⟨0, 0, 1⟩ := by
  have hdown : constructPlaneCorrection ⟨0, 0, -1⟩ = PlaneCorrection.ident := by
    rw [constructPlaneCorrection_eq, planeAngle_down_axis, if_neg (by norm_num)]
  have hup : constructPlaneCorrection ⟨0, 0, 1⟩ = PlaneCorrection.ident := by
    rw [constructPlaneCorrection_eq, planeAngle_up_axis, if_neg (by norm_num)]
  refine ⟨?_, by simp [vcross], planeAngle_down_axis, hdown, hdown.trans hup.symm⟩
  intro normal
  exact Real.arcsin_le_pi_div_two _

/-- Claim C5: when the relative-to-model-frame flag is set the stored axis is
the declared axis rotated by the rotation part of `T_joint⁻¹ * T_model`
(the code computes this as the quaternion `O_R_J⁻¹ * O_R_M`); when unset the
declared axis is stored unchanged; the single-axis property constructor
(shared by revolute, prismatic, screw) stores exactly this conversion, and the
universal joint applies the identical conversion independently to each of its
two axes. -/
theorem C5_axis_frame_conversion (st : ModelState) (ax : SdfJointAxis)
    (T_joint : Iso) :
    (ax.useParentModelFrame = true →
      convertJointAxis st ax T_joint =
        (T_joint⁻¹ * getParentModelFrame st).R *ᵥ ax.xyz) ∧
    (ax.useParentModelFrame = false →
      convertJointAxis st ax T_joint = ax.xyz) ∧
    (∀ j : SdfJoint,
      (constructSingleAxisJointProps st j T_joint).axis =
        convertJointAxis st j.axis0 T_joint ∧
      (constructUniversalJointProps st j T_joint).axis0 =
        convertJointAxis st j.axis0 T_joint ∧
      (constructUniversalJointProps st j T_joint).axis1 =
        convertJointAxis st j.axis1 T_joint) := by
  refine ⟨?_, ?_, fun j => ⟨rfl, rfl, rfl⟩⟩
  · intro h
    simp [convertJointAxis, h, iso_mul_R, iso_inv_R]
  · intro h
    simp [convertJointAxis, h]

theorem C5_axis_frame_conversion_witness :
    convertJointAxis sampleStateOneBody sampleAxisModelFrame 1 =
      ((1 : Iso)⁻¹ * getParentModelFrame sampleStateOneBody).R *ᵥ
        sampleAxisModelFrame.xyz ∧
    convertJointAxis sampleStateOneBody sampleAxisNeg 1 = sampleAxisNeg.xyz :=
  ⟨(C5_axis_frame_conversion sampleStateOneBody sampleAxisModelFrame 1).1 rfl,
   (C5_axis_frame_conversion sampleStateOneBody sampleAxisNeg 1).2.1 rfl⟩

/-- Claim C4 counterexample: the claim says the Joint Builder accepts a null
parent body when the joint is the very first joint (substituting an implicit
free joint to the world).  The null check on line 531 rejects a null parent
unconditionally: in a freshly built one-link model whose joint registry holds
only the link's internal free joint, the very first explicit joint
construction with a null parent returns the invalid handle and leaves the
state untouched. -/
theorem C4_null_parent_counterexample :
    constructSdfJoint sampleEngineQ sampleStateOneBody sampleJoint none
      (some 0) = (sampleStateOneBody, none) := rfl

/-- Claim C4 (amended): a missing (null) parent or child body always causes a
reported error and an invalid handle for that joint — including for the very
first joint, for which no implicit world attachment is substituted — with the
state unchanged; the model's joint loop then continues with the remaining
joints. -/
theorem C4_missing_body_error_amended (Q : SdfJoint → Iso) (st : ModelState)
    (j : SdfJoint) (parent child : Option Nat) :
    (parent = none ∨ child = none →
      constructSdfJoint Q st j parent child = (st, none)) ∧
    (∀ (m : SdfModel) (rest : List SdfJoint),
      (j :: rest).foldl (jointStep Q m) st =
        rest.foldl (jointStep Q m) (jointStep Q m st j)) := by
  constructor
  · rintro (rfl | rfl)
    · rfl
    · cases parent <;> rfl
  · intro m rest
    rfl

theorem C4_missing_body_error_amended_witness :
    constructSdfJoint sampleEngineQ sampleStateOneBody sampleJoint (some 0)
      none = (sampleStateOneBody, none) :=
  (C4_missing_body_error_amended sampleEngineQ sampleStateOneBody sampleJoint
    (some 0) none).1 (Or.inr rfl)

theorem constructSdfLink_bodies (st : ModelState) (link : SdfLink) :
    (constructSdfLink st link).1.bodies =
      st.bodies ++
        [⟨link.name, none, 1,
          resolveSdfLinkReferenceFrame st link.poseFrame * link.pose, 1⟩] := by
  simp only [constructSdfLink]
  split <;> rfl

theorem constructSdfLink_id (st : ModelState) (link : SdfLink) :
    (constructSdfLink st link).2 = st.bodies.length := by
  simp only [constructSdfLink]
  split <;> rfl

theorem getBodyNodeAux_append_none {linkName : String} {bs : List Body}
    (b : Body) (i : Nat) (h : getBodyNodeAux linkName bs i = none) :
    getBodyNodeAux linkName (bs ++ [b]) i =
      if b.name = linkName then some (i + bs.length) else none := by
  induction bs generalizing i with
  | nil =>
    simp [getBodyNodeAux]
  | cons x rest ih =>
    simp only [List.cons_append, getBodyNodeAux, List.append_eq] at h ⊢
    by_cases hx : x.name = linkName
    · simp [hx] at h
    · rw [if_neg hx] at h ⊢
      rw [ih (i + 1) h]
      have harith : i + 1 + rest.length = i + (rest.length + 1) := by omega
      rw [List.length_cons, harith]

theorem getBodyNode_append_none {linkName : String} {bs : List Body}
    (b : Body) (h : getBodyNode bs linkName = none) (hb : b.name = linkName) :
    getBodyNode (bs ++ [b]) linkName = some bs.length := by
  unfold getBodyNode at *
  rw [getBodyNodeAux_append_none b 0 h, if_pos hb, Nat.zero_add]

/-- Claim C7: resolving the same link name twice within a model — no matter
which pass makes either call, since the link-declaration loop and the joint
loop invoke the identical resolver — returns the identical body and state the
second time (so the body is created at most once); a single resolution grows
the body list by at most one; and a name that is neither an existing body nor
a declared link resolves to `none` with a diagnosed error. -/
theorem C7_link_resolution_idempotent (st : ModelState) (m : SdfModel)
    (linkName : String) :
    findOrConstructLink (findOrConstructLink st m linkName).1 m linkName =
      findOrConstructLink st m linkName ∧
    (findOrConstructLink st m linkName).1.bodies.length ≤
      st.bodies.length + 1 ∧
    (getBodyNode st.bodies linkName = none →
      m.links.find? (fun l => l.name == linkName) = none →
      findOrConstructLink st m linkName = (st, none)) := by
  refine ⟨?_, ?_, ?_⟩
  · cases hgb : getBodyNode st.bodies linkName with
    | some i =>
      simp [findOrConstructLink, hgb]
    | none =>
      cases hf : m.links.find? (fun l => l.name == linkName) with
      | none =>
        simp [findOrConstructLink, hgb, hf]
      | some link =>
        have hname : link.name = linkName := by
          have := List.find?_some hf
          simpa using this
        have hgb2 : getBodyNode (constructSdfLink st link).1.bodies linkName =
            some (constructSdfLink st link).2 := by
          rw [constructSdfLink_bodies, constructSdfLink_id]
          exact getBodyNode_append_none _ hgb hname
        simp [findOrConstructLink, hgb, hf, hgb2]
  · cases hgb : getBodyNode st.bodies linkName with
    | some i =>
      simp [findOrConstructLink, hgb]
    | none =>
      cases hf : m.links.find? (fun l => l.name == linkName) with
      | none =>
        simp [findOrConstructLink, hgb, hf]
      | some link =>
        simp [findOrConstructLink, hgb, hf, constructSdfLink_bodies]
  · intro h1 h2
    simp [findOrConstructLink, h1, h2]

theorem C7_link_resolution_idempotent_witness :
    findOrConstructLink
        (findOrConstructLink sampleStateEmpty sampleModelOneLink "base").1
        sampleModelOneLink "base" =
      findOrConstructLink sampleStateEmpty sampleModelOneLink "base" ∧
    findOrConstructLink sampleStateEmpty sampleModelOneLink "arm" =
      (sampleStateEmpty, none) :=
  ⟨(C7_link_resolution_idempotent sampleStateEmpty sampleModelOneLink
      "base").1,
   (C7_link_resolution_idempotent sampleStateEmpty sampleModelOneLink
      "arm").2.2 rfl rfl⟩

theorem iso_inv_one : (1 : Iso)⁻¹ = 1 := by
  apply iso_ext <;> simp [iso_inv_R, iso_inv_t, iso_one_R, iso_one_t]

theorem constructSdfLink_frameParent_of_nonempty (st : ModelState)
    (link : SdfLink) (h : st.bodies ≠ []) :
    (constructSdfLink st link).1.frameParent = st.frameParent := by
  simp only [constructSdfLink]
  split
  · next hlen =>
    exfalso
    simp only [List.length_append, List.length_cons, List.length_nil] at hlen
    exact h (List.length_eq_zero.mp (by omega))
  · rfl

theorem constructSdfLink_frameParent_of_empty (st : ModelState)
    (link : SdfLink) (h : st.bodies = []) :
    (constructSdfLink st link).1.frameParent = some 0 := by
  simp only [constructSdfLink]
  split
  · next hlen => simp [h]
  · next hlen =>
    exfalso
    apply hlen
    simp [h]

theorem setJointBody_length (bs : List Body) (c p : Nat) (pre q post : Iso) :
    (setJointBody bs c p pre q post).length = bs.length := by
  unfold setJointBody
  split
  · rfl
  · simp [List.length_set]

theorem constructSdfJoint_frame_preserved (Q : SdfJoint → Iso)
    (st : ModelState) (j : SdfJoint) (parent child : Option Nat) :
    (constructSdfJoint Q st j parent child).1.frameParent = st.frameParent ∧
    (constructSdfJoint Q st j parent child).1.bodies.length =
      st.bodies.length := by
  cases parent with
  | none => exact ⟨rfl, rfl⟩
  | some p =>
    cases child with
    | none => exact ⟨rfl, rfl⟩
    | some c =>
      simp only [constructSdfJoint]
      split
      · exact ⟨rfl, rfl⟩
      · split
        · exact ⟨rfl, setJointBody_length st.bodies c p _ _ _⟩
        · exact ⟨rfl, rfl⟩

theorem findOrConstructLink_preserves_inv (st : ModelState) (m : SdfModel)
    (nm : String) (h1 : st.bodies ≠ []) (h2 : st.frameParent = some 0) :
    (findOrConstructLink st m nm).1.bodies ≠ [] ∧
    (findOrConstructLink st m nm).1.frameParent = some 0 := by
  unfold findOrConstructLink
  cases hgb : getBodyNode st.bodies nm with
  | some i => exact ⟨h1, h2⟩
  | none =>
    cases hf : m.links.find? (fun l => l.name == nm) with
    | none => exact ⟨h1, h2⟩
    | some link =>
      refine ⟨?_, ?_⟩
      · rw [constructSdfLink_bodies]
        simp
      · rw [constructSdfLink_frameParent_of_nonempty st link h1]
        exact h2

theorem constructSdfJoint_preserves_inv (Q : SdfJoint → Iso) (st : ModelState)
    (j : SdfJoint) (parent child : Option Nat) (h1 : st.bodies ≠ [])
    (h2 : st.frameParent = some 0) :
    (constructSdfJoint Q st j parent child).1.bodies ≠ [] ∧
    (constructSdfJoint Q st j parent child).1.frameParent = some 0 := by
  have hfr := constructSdfJoint_frame_preserved Q st j parent child
  constructor
  · intro hx
    apply h1
    have hlen := hfr.2
    rw [hx] at hlen
    exact List.length_eq_zero.mp hlen.symm
  · rw [hfr.1]
    exact h2

theorem jointStep_preserves_inv (Q : SdfJoint → Iso) (m : SdfModel)
    (st : ModelState) (j : SdfJoint) (h1 : st.bodies ≠ [])
    (h2 : st.frameParent = some 0) :
    (jointStep Q m st j).bodies ≠ [] ∧
    (jointStep Q m st j).frameParent = some 0 := by
  have ha := findOrConstructLink_preserves_inv st m j.parentLinkName h1 h2
  have hb := findOrConstructLink_preserves_inv
    (findOrConstructLink st m j.parentLinkName).1 m j.childLinkName ha.1 ha.2
  exact constructSdfJoint_preserves_inv Q _ j _ _ hb.1 hb.2

theorem foldl_preserves {α : Type} (P : ModelState → Prop)
    (step : ModelState → α → ModelState)
    (hstep : ∀ st a, P st → P (step st a)) :
    ∀ (l : List α) (st : ModelState), P st → P (l.foldl step st) := by
  intro l
  induction l with
  | nil => exact fun st h => h
  | cons a rest ih => exact fun st h => ih (step st a) (hstep st a h)

theorem linkStep_establishes_inv (m : SdfModel) (fr : Iso) (nj : Nat)
    (l : SdfLink) (rest : List SdfLink) (hm : m.links = l :: rest) :
    (linkStep m ⟨[], none, fr, nj⟩ l).bodies ≠ [] ∧
    (linkStep m ⟨[], none, fr, nj⟩ l).frameParent = some 0 := by
  have hfind : m.links.find? (fun x => x.name == l.name) = some l := by
    rw [hm]
    simp [List.find?]
  have hstep : linkStep m ⟨[], none, fr, nj⟩ l =
      (constructSdfLink ⟨[], none, fr, nj⟩ l).1 := by
    unfold linkStep findOrConstructLink
    rw [hfind]
    rfl
  constructor
  · rw [hstep, constructSdfLink_bodies]
    simp
  · rw [hstep]
    exact constructSdfLink_frameParent_of_empty _ l rfl

theorem jointStep_of_no_links (Q : SdfJoint → Iso) (m : SdfModel)
    (st : ModelState) (j : SdfJoint) (hl : m.links = [])
    (hb : st.bodies = []) : jointStep Q m st j = st := by
  unfold jointStep findOrConstructLink
  simp [getBodyNode, getBodyNodeAux, hl, hb, constructSdfJoint]

theorem joints_foldl_no_links (Q : SdfJoint → Iso) (m : SdfModel)
    (hl : m.links = []) :
    ∀ (js : List SdfJoint) (st : ModelState), st.bodies = [] →
      js.foldl (jointStep Q m) st = st := by
  intro js
  induction js with
  | nil => exact fun st _ => rfl
  | cons j rest ih =>
    intro st h
    rw [List.foldl_cons, jointStep_of_no_links Q m st j hl h]
    exact ih st h

theorem constructSdfLink_first_frame_pose (fr : Iso) (nj : Nat)
    (link : SdfLink)
    (hr : (resolveSdfLinkReferenceFrame ⟨[], none, fr, nj⟩ link.poseFrame *
        link.pose).IsRigid) :
    frameWorldTransform (constructSdfLink ⟨[], none, fr, nj⟩ link).1 =
      frameWorldTransform ⟨[], none, fr, nj⟩ := by
  have hred : frameWorldTransform (constructSdfLink ⟨[], none, fr, nj⟩ link).1 =
      (1 * (resolveSdfLinkReferenceFrame ⟨[], none, fr, nj⟩ link.poseFrame *
          link.pose) * (1 : Iso)⁻¹) *
        ((1 * (resolveSdfLinkReferenceFrame ⟨[], none, fr, nj⟩ link.poseFrame *
          link.pose) * (1 : Iso)⁻¹)⁻¹ * fr) := rfl
  rw [hred, iso_inv_one, iso_mul_one, iso_one_mul]
  exact iso_mul_inv_cancel_left hr fr

/-- Claim C6: after a model build the model frame's parent is the world frame
when the model declares no links, and otherwise the canonical (first-added)
body; and the reparenting of the model frame onto that first body preserves
the model frame's world transform (before the first body exists the frame
hangs from the world, so the preservation step is stated for any state with
an empty body list awaiting its first link). -/
theorem C6_model_frame_canonical_link (Q : SdfJoint → Iso) (m : SdfModel) :
    (m.links = [] → (constructSdfModel Q m).frameParent = none) ∧
    (m.links ≠ [] → (constructSdfModel Q m).frameParent = some 0) ∧
    (∀ (st : ModelState) (link : SdfLink), st.bodies = [] →
      st.frameParent = none →
      (resolveSdfLinkReferenceFrame st link.poseFrame * link.pose).IsRigid →
      frameWorldTransform (constructSdfLink st link).1 =
        frameWorldTransform st) := by
  refine ⟨?_, ?_, ?_⟩
  · intro hl
    simp only [constructSdfModel]
    rw [hl, List.foldl_nil,
      joints_foldl_no_links Q m hl m.joints ⟨[], none, m.pose, 0⟩ rfl]
  · intro hl
    obtain ⟨l, rest, hm⟩ := List.exists_cons_of_ne_nil hl
    simp only [constructSdfModel]
    rw [hm, List.foldl_cons]
    have hinv1 := linkStep_establishes_inv m m.pose 0 l rest hm
    have hinv2 := foldl_preserves
      (fun st => st.bodies ≠ [] ∧ st.frameParent = some 0) (linkStep m)
      (fun st a h => findOrConstructLink_preserves_inv st m a.name h.1 h.2)
      rest _ hinv1
    have hinv3 := foldl_preserves
      (fun st => st.bodies ≠ [] ∧ st.frameParent = some 0) (jointStep Q m)
      (fun st a h => jointStep_preserves_inv Q m st a h.1 h.2)
      m.joints _ hinv2
    exact hinv3.2
  · intro st link hb hf hr
    obtain ⟨bs, fp, fr, nj⟩ := st
    simp only at hb hf
    subst hb
    subst hf
    exact constructSdfLink_first_frame_pose fr nj link hr

theorem C6_model_frame_canonical_link_witness :
    (constructSdfModel sampleEngineQ sampleModelOneLink).frameParent =
      some 0 ∧
    frameWorldTransform (constructSdfLink sampleStateEmpty sampleLinkBase).1 =
      frameWorldTransform sampleStateEmpty :=
  ⟨(C6_model_frame_canonical_link sampleEngineQ sampleModelOneLink).2.1
      (List.cons_ne_nil _ _),
   (C6_model_frame_canonical_link sampleEngineQ sampleModelOneLink).2.2
      sampleStateEmpty sampleLinkBase rfl rfl
      (iso_isRigid_mul iso_isRigid_one iso_isRigid_one)⟩

theorem iterP_one (f : Nat → Option Nat) (a : Nat) : iterP f 1 a = f a := by
  cases hfa : f a <;> simp [iterP, hfa]

theorem iterP_add (f : Nat → Option Nat) (i k a : Nat) :
    iterP f (i + k) a = (iterP f i a).bind (iterP f k) := by
  induction i generalizing a with
  | zero => simp [iterP]
  | succ n ih =>
    rw [Nat.succ_add]
    cases hfa : f a with
    | none => simp [iterP, hfa]
    | some p => simp [iterP, hfa, ih p]

theorem iterP_prefix (f : Nat → Option Nat) {k i a c : Nat}
    (h : iterP f k a = some c) (hik : i ≤ k) :
    ∃ v, iterP f i a = some v := by
  have h2 : iterP f (i + (k - i)) a = some c := by
    rwa [Nat.add_sub_cancel' hik]
  rw [iterP_add] at h2
  cases hv : iterP f i a with
  | none => rw [hv] at h2; simp at h2
  | some v => exact ⟨v, rfl⟩

theorem iterP_rotate (f : Nat → Option Nat) {k i a c : Nat}
    (hk : iterP f k a = some a) (hi : iterP f i a = some c) (hik : i ≤ k) :
    iterP f k c = some c := by
  have h1 : iterP f (i + (k - i)) a = some a := by
    rwa [Nat.add_sub_cancel' hik]
  rw [iterP_add, hi] at h1
  simp only [Option.some_bind] at h1
  have h2 : iterP f ((k - i) + i) c = some c := by
    rw [iterP_add, h1]
    simpa using hi
  rwa [Nat.sub_add_cancel hik] at h2

theorem iterP_le_of_acyclic (f : Nat → Option Nat) (bound : Nat)
    (hval : ∀ x p, f x = some p → x < bound) (hA : AcyclicF f)
    {k a c : Nat} (h : iterP f k a = some c) : k ≤ bound := by
  by_contra hgt
  push_neg at hgt
  have key : ∀ i j, i < j → j ≤ bound →
      (iterP f i a).getD 0 = (iterP f j a).getD 0 → False := by
    intro i j hij hjb hgeq
    obtain ⟨v, hv⟩ := iterP_prefix f h (by omega : i ≤ k)
    obtain ⟨w, hw⟩ := iterP_prefix f h (by omega : j ≤ k)
    rw [hv, hw] at hgeq
    simp only [Option.getD_some] at hgeq
    have h1 : iterP f (i + (j - i)) a = some w := by
      rwa [Nat.add_sub_cancel' (le_of_lt hij)]
    rw [iterP_add, hv] at h1
    simp only [Option.some_bind] at h1
    rw [← hgeq] at h1
    exact hA v (j - i) (by omega) h1
  have hmaps : ∀ i ∈ Finset.range (bound + 1),
      (fun i => (iterP f i a).getD 0) i ∈ Finset.range bound := by
    intro i hi
    simp only [Finset.mem_range] at hi ⊢
    obtain ⟨v, hv⟩ := iterP_prefix f h (by omega : i ≤ k)
    obtain ⟨w, hw⟩ := iterP_prefix f h (by omega : i + 1 ≤ k)
    rw [iterP_add, hv] at hw
    simp only [Option.some_bind] at hw
    rw [iterP_one] at hw
    rw [hv]
    simpa using hval v w hw
  have hcard : (Finset.range bound).card < (Finset.range (bound + 1)).card := by
    simp
  obtain ⟨i, hi, j, hj, hne, heq⟩ :=
    Finset.exists_ne_map_eq_of_card_lt_of_maps_to hcard hmaps
  simp only [Finset.mem_range] at hi hj
  rcases Nat.lt_or_ge i j with hij | hij
  · exact key i j hij (by omega) heq
  · have hji : j < i := by omega
    exact key j i hji (by omega) heq.symm

theorem descendsAuxF_false (f : Nat → Option Nat) :
    ∀ (fuel a b : Nat), descendsAuxF f fuel a b = false →
      ∀ k, k < fuel → iterP f k a ≠ some b := by
  intro fuel
  induction fuel with
  | zero =>
    intro a b _ k hk
    omega
  | succ n ih =>
    intro a b h k hk
    simp only [descendsAuxF] at h
    rw [Bool.or_eq_false_iff] at h
    obtain ⟨hab, hrest⟩ := h
    have hne : a ≠ b := by simpa using hab
    cases k with
    | zero =>
      intro hc
      simp only [iterP, Option.some_inj] at hc
      exact hne hc
    | succ kk =>
      intro hc
      cases hfa : f a with
      | none => simp [iterP, hfa] at hc
      | some p =>
        rw [hfa] at hrest
        have hc2 : iterP f kk p = some b := by
          simpa [iterP, hfa] using hc
        exact ih p b hrest kk (by omega) hc2

theorem iterP_updF_eq (f : Nat → Option Nat) (c p : Nat) :
    ∀ (j x : Nat), (∀ i, i < j → iterP (updF f c p) i x ≠ some c) →
      iterP (updF f c p) j x = iterP f j x := by
  intro j
  induction j with
  | zero => intro x _; rfl
  | succ n ih =>
    intro x h
    have hx : x ≠ c := by
      have h0 := h 0 (by omega)
      simpa [iterP] using h0
    have hfx : updF f c p x = f x := by simp [updF, hx]
    cases hfa : f x with
    | none => simp [iterP, hfx, hfa]
    | some w =>
      have hrec : ∀ i, i < n → iterP (updF f c p) i w ≠ some c := by
        intro i hi
        have hnext := h (i + 1) (by omega)
        simpa [iterP, hfx, hfa] using hnext
      simp [iterP, hfx, hfa, ih w hrec]

theorem acyclicF_update (f : Nat → Option Nat) (hA : AcyclicF f) (p c : Nat)
    (hreach : ∀ k, iterP f k p ≠ some c) : AcyclicF (updF f c p) := by
  intro a k hk hcyc
  by_cases hvisit : ∀ i, i < k → iterP (updF f c p) i a ≠ some c
  · rw [iterP_updF_eq f c p k a hvisit] at hcyc
    exact hA a k hk hcyc
  · push_neg at hvisit
    obtain ⟨i, hik, hic⟩ := hvisit
    have hrot : iterP (updF f c p) k c = some c :=
      iterP_rotate (updF f c p) hcyc hic (le_of_lt hik)
    have hfc : updF f c p c = some p := by simp [updF]
    obtain ⟨kk, hkk⟩ : ∃ kk, k = kk + 1 := ⟨k - 1, by omega⟩
    subst hkk
    have hp : iterP (updF f c p) kk p = some c := by
      simpa [iterP, hfc] using hrot
    have hex : ∃ j, iterP (updF f c p) j p = some c := ⟨kk, hp⟩
    have hj : iterP (updF f c p) (Nat.find hex) p = some c := Nat.find_spec hex
    have hmin : ∀ i2, i2 < Nat.find hex →
        iterP (updF f c p) i2 p ≠ some c :=
      fun i2 hi2 => Nat.find_min hex hi2
    rw [iterP_updF_eq f c p (Nat.find hex) p hmin] at hj
    exact hreach (Nat.find hex) hj

theorem no_reach_of_descends_false (bs : List Body) (hA : Acyclic bs)
    (p c : Nat)
    (hg : descendsAuxF (parentOf bs) (bs.length + 1) p c = false) :
    ∀ k, iterP (parentOf bs) k p ≠ some c := by
  intro k hk
  have hval : ∀ x q, parentOf bs x = some q → x < bs.length := by
    intro x q hx
    by_contra hxl
    push_neg at hxl
    unfold parentOf at hx
    rw [List.getElem?_eq_none hxl] at hx
    simp at hx
  have hk_le : k ≤ bs.length :=
    iterP_le_of_acyclic (parentOf bs) bs.length hval hA hk
  exact descendsAuxF_false (parentOf bs) (bs.length + 1) p c hg k
    (by omega) hk

theorem parentOf_set_updF (bs : List Body) (c p : Nat) (b' : Body)
    (hc : c < bs.length) (hp : b'.parent = some p) :
    parentOf (bs.set c b') = updF (parentOf bs) c p := by
  funext x
  unfold parentOf updF
  by_cases hx : x = c
  · subst hx
    rw [List.getElem?_set_self hc]
    simp [hp]
  · rw [List.getElem?_set_ne (Ne.symm hx)]
    simp [hx]

theorem setJointBody_acyclic (bs : List Body) (c p : Nat) (pre q post : Iso)
    (hA : Acyclic bs)
    (hguard : descendsAuxF (parentOf bs) (bs.length + 1) p c = false) :
    Acyclic (setJointBody bs c p pre q post) := by
  unfold setJointBody
  cases hgc : bs[c]? with
  | none => exact hA
  | some b =>
    obtain ⟨hc, _⟩ := List.getElem?_eq_some_iff.mp hgc
    unfold Acyclic
    rw [parentOf_set_updF bs c p _ hc rfl]
    exact acyclicF_update (parentOf bs) hA p c
      (no_reach_of_descends_false bs hA p c hguard)

theorem constructSdfJoint_acyclic (Q : SdfJoint → Iso) (st : ModelState)
    (j : SdfJoint) (parent child : Option Nat) (hA : Acyclic st.bodies) :
    Acyclic (constructSdfJoint Q st j parent child).1.bodies := by
  cases parent with
  | none => exact hA
  | some p =>
    cases child with
    | none => exact hA
    | some c =>
      simp only [constructSdfJoint]
      split
      · exact hA
      · next hdesc =>
        split
        · rw [Bool.not_eq_true] at hdesc
          exact setJointBody_acyclic st.bodies c p _ _ _ hA hdesc
        · exact hA

/-- Claim C2: a joint whose declared parent descends from its declared child
(DART's reflexive-transitive ancestry test) is rejected with the invalid
handle and the whole model state — every body's parent joint, transforms and
ancestry, the model frame, the joint registry — is left exactly as it was;
and every joint-construction call, accepted or rejected, preserves the
invariant that no body is its own ancestor. -/
theorem C2_tree_invariant (Q : SdfJoint → Iso) (st : ModelState)
    (j : SdfJoint) :
    (∀ p c : Nat, descendsFrom st p c = true →
      constructSdfJoint Q st j (some p) (some c) = (st, none)) ∧
    (∀ parent child : Option Nat, Acyclic st.bodies →
      Acyclic (constructSdfJoint Q st j parent child).1.bodies) := by
  constructor
  · intro p c h
    simp [constructSdfJoint, h]
  · intro parent child hA
    exact constructSdfJoint_acyclic Q st j parent child hA

theorem sampleStateOneBody_acyclic : Acyclic sampleStateOneBody.bodies := by
  intro a k hk
  cases k with
  | zero => omega
  | succ n =>
    have hnone : parentOf sampleStateOneBody.bodies a = none := by
      unfold parentOf sampleStateOneBody sampleBody
      cases a <;> simp
    simp [iterP, hnone]

theorem C2_tree_invariant_witness :
    constructSdfJoint sampleEngineQ sampleStateOneBody sampleJoint (some 0)
        (some 0) = (sampleStateOneBody, none) ∧
    Acyclic (constructSdfJoint sampleEngineQ sampleStateOneBody sampleJoint
        (some 0) (some 0)).1.bodies :=
  ⟨(C2_tree_invariant sampleEngineQ sampleStateOneBody sampleJoint).1 0 0 rfl,
   (C2_tree_invariant sampleEngineQ sampleStateOneBody sampleJoint).2
      (some 0) (some 0) sampleStateOneBody_acyclic⟩
